import Mathlib

/-!
Verification development for the rhythm-game engine in `src/game.js`
(repository `mp4fes`).  Times are modelled as rationals (milliseconds),
scores and counters as naturals, health as an integer clamped to
`[0, maxHP]`.  Each definition is a direct translation of the
corresponding JavaScript function; presentational code (canvas drawing,
DOM updates, sound) is omitted as it never touches the judged state.
-/

namespace RhythmGame

/-- Judgment tiers, the string constants of `game.js`
(`'PERFECT' | 'GREAT' | 'GOOD' | 'MISS'`). -/
inductive Judgment where
  | PERFECT
  | GREAT
  | GOOD
  | MISS
deriving DecidableEq, Repr

/-- A pending note, as pushed by `addNote` (game.js:451-458).  The constant
fields `type`, `holdDuration` and `isHolding` of the JS object are never read
by the engine in this variant and are omitted.  `id` instruments the object
identity a JS note has on the heap (each `push` creates a fresh object);
it is needed to state per-note properties across frames. -/
structure Note where
  id : ℕ
  targetIdx : ℕ
  spawnTime : ℚ
  duration : ℚ
  isSimultaneous : Bool
  processed : Bool
deriving DecidableEq, Repr

/-- Arrival time of a note: `note.spawnTime + note.duration`
(game.js:542, 648). -/
def Note.arrival (n : Note) : ℚ :=
  n.spawnTime + n.duration

/-- Per-tier counters, the JS `stats` object (game.js:21). -/
structure Stats where
  perfect : ℕ
  great : ℕ
  good : ℕ
  miss : ℕ
deriving DecidableEq, Repr

/-- Aggregate session state mutated by `applyJudgment`. -/
structure Session where
  score : ℕ
  combo : ℕ
  maxCombo : ℕ
  stats : Stats
  currentHP : ℤ
deriving DecidableEq, Repr

/-- `this.maxHP = 100` (game.js:22). -/
def maxHP : ℤ := 100

/-- Session state right after `startGame` resets it (game.js:237-241):
score, combo, maxCombo and all counters zero, `currentHP = maxHP`. -/
def freshSession : Session :=
  { score := 0, combo := 0, maxCombo := 0
    stats := { perfect := 0, great := 0, good := 0, miss := 0 }
    currentHP := maxHP }

/-- `applyJudgment(j, countStats = true)` (game.js:562-597).  MISS resets the
combo, bumps the miss counter and loses 10 HP; the other tiers bump the combo
first, add `base + combo * 10` to the score with the post-increment combo
(1000 / 750 / 500 for PERFECT / GREAT / GOOD), and change HP by +1 / 0 / -2.
Every HP write goes through `min(maxHP, max(0, hp + change))` (game.js:593). -/
def applyJudgment (j : Judgment) (countStats : Bool) (s : Session) : Session :=
  match j with
  | .MISS =>
      { s with
        combo := 0
        stats := if countStats then { s.stats with miss := s.stats.miss + 1 } else s.stats
        currentHP := min maxHP (max 0 (s.currentHP - 10)) }
  | .PERFECT =>
      { s with
        combo := s.combo + 1
        maxCombo := max (s.combo + 1) s.maxCombo
        stats := if countStats then { s.stats with perfect := s.stats.perfect + 1 } else s.stats
        score := s.score + (1000 + (s.combo + 1) * 10)
        currentHP := min maxHP (max 0 (s.currentHP + 1)) }
  | .GREAT =>
      { s with
        combo := s.combo + 1
        maxCombo := max (s.combo + 1) s.maxCombo
        stats := if countStats then { s.stats with great := s.stats.great + 1 } else s.stats
        score := s.score + (750 + (s.combo + 1) * 10)
        currentHP := min maxHP (max 0 (s.currentHP + 0)) }
  | .GOOD =>
      { s with
        combo := s.combo + 1
        maxCombo := max (s.combo + 1) s.maxCombo
        stats := if countStats then { s.stats with good := s.stats.good + 1 } else s.stats
        score := s.score + (500 + (s.combo + 1) * 10)
        currentHP := min maxHP (max 0 (s.currentHP + (-2))) }

/-- Apply a list of judgments in order (each with `countStats = true`,
as at both call sites in game.js). -/
def applySeq (js : List Judgment) (s : Session) : Session :=
  js.foldl (fun acc j => applyJudgment j true acc) s

/-- Tier classification of `checkHit` (game.js:551-554) given the winning
`minDiff`.  The JS initialiser `let j = 'MISS'` is dead: the final `else`
always rewrites it to `'GOOD'`. -/
def judgeTier (d : ℚ) : Judgment :=
  if d < 60 then .PERFECT
  else if d < 120 then .GREAT
  else .GOOD

/-- `diff = Math.abs(now - arrTime)` (game.js:543). -/
def noteDiff (now : ℚ) (n : Note) : ℚ :=
  |now - n.arrival|

/-- The improvement test of the `checkHit` loop (game.js:544):
`diff < 180 && diff < minDiff`, with `minDiff` starting at `Infinity`
(encoded as the `none` accumulator). -/
def takesBest (d : ℚ) : Option (ℕ × ℚ) → Bool
  | none => decide (d < 180)
  | some p => decide (d < 180) && decide (d < p.2)

/-- The candidate-selection loop of `checkHit` (game.js:540-548): scan the
note list left to right, keeping the position and diff of the best note so
far.  A note is taken when it lies on the tapped target, is unprocessed, and
its diff passes `takesBest` against the running best. -/
def bestCandAux (t : ℕ) (now : ℚ) : List Note → ℕ → Option (ℕ × ℚ) → Option (ℕ × ℚ)
  | [], _, best => best
  | n :: rest, i, best =>
      if n.targetIdx = t ∧ n.processed = false ∧ takesBest (noteDiff now n) best = true then
        bestCandAux t now rest (i + 1) (some (i, noteDiff now n))
      else
        bestCandAux t now rest (i + 1) best

/-- Best candidate over the whole pending-note list. -/
def bestCand (t : ℕ) (now : ℚ) (notes : List Note) : Option (ℕ × ℚ) :=
  bestCandAux t now notes 0 none

/-- Mark the note at a given position as processed, the JS mutation
`found.processed = true` (game.js:556) expressed positionally. -/
def setProcessed : List Note → ℕ → List Note
  | [], _ => []
  | n :: rest, 0 => { n with processed := true } :: rest
  | n :: rest, i + 1 => n :: setProcessed rest i

/-- Full game state during play: pending notes, session aggregates, the
`startTime` recorded from `performance.now()` at `startGame`
(game.js:280), and the id counter instrumenting note allocation. -/
structure GameState where
  notes : List Note
  session : Session
  startTime : ℚ
  nextId : ℕ
deriving DecidableEq, Repr

/-- `checkHit(targetIdx)` (game.js:533-560) with the already-computed input
time `now` (in the source, `now = performance.now() - this.startTime`,
game.js:535) passed as an argument.  Returns the new state and, when a note
matched, the id of the judged note together with the emitted judgment. -/
def checkHit (t : ℕ) (now : ℚ) (σ : GameState) : GameState × Option (ℕ × Judgment) :=
  match bestCand t now σ.notes with
  | none => (σ, none)
  | some (i, d) =>
      let j := judgeTier d
      let noteId := (σ.notes[i]?.map Note.id).getD 0
      ({ σ with
          notes := setProcessed σ.notes i
          session := applyJudgment j true σ.session },
        some (noteId, j))

/-- One pass of the timeout sweep over a single note (game.js:646-654):
an unprocessed note whose arrival time lies more than 180 ms in the past
is marked processed. -/
def sweepOne (now : ℚ) (n : Note) : Note :=
  if n.processed = false ∧ n.arrival + 180 < now then { n with processed := true } else n

/-- The ids of the notes the sweep retires this frame, each paired with the
synthesized MISS the source feeds to `applyJudgment('MISS')` (game.js:652). -/
def sweepEmits (now : ℚ) (notes : List Note) : List (ℕ × Judgment) :=
  (notes.filter fun n => !n.processed && decide (n.arrival + 180 < now)).map
    fun n => (n.id, Judgment.MISS)

/-- The retention filter of `update` (game.js:656): keep a note if it is
unprocessed or retired less than 1000 ms ago. -/
def retainFilter (now : ℚ) (notes : List Note) : List Note :=
  notes.filter fun n => !n.processed || decide (now - n.arrival < 1000)

/-- The per-frame judged-state part of `update(t)` (game.js:634-659) at video
time `now = this.video.currentTime * 1000` (game.js:636): sweep timeouts,
apply one MISS per retired note, then drop stale processed notes.  Chart
popping / spawning is modelled by separate `Ev.spawn` events. -/
def frameStep (now : ℚ) (σ : GameState) : GameState × List (ℕ × Judgment) :=
  let ems := sweepEmits now σ.notes
  ({ σ with
      notes := retainFilter now (σ.notes.map (sweepOne now))
      session := ems.foldl (fun s _ => applyJudgment .MISS true s) σ.session },
    ems)

/-- `addNote(targetIdx, spawnTime, duration, ...)` (game.js:451-458):
push a fresh unprocessed note. -/
def addNote (id t : ℕ) (spawnTime duration : ℚ) (isSimul : Bool) (notes : List Note) :
    List Note :=
  notes ++ [{ id := id, targetIdx := t, spawnTime := spawnTime, duration := duration,
              isSimultaneous := isSimul, processed := false }]

/-- `spawnNote` (game.js:419-449) at video time `now`
(`this.video.currentTime * 1000`, game.js:421), with the randomly chosen
target indices `t1` (and `t2` for a simultaneous pair) supplied by the
environment.  A simultaneous beat adds two notes sharing the spawn time. -/
def spawnNote (t1 t2 : ℕ) (isSimul : Bool) (now dur : ℚ) (σ : GameState) : GameState :=
  if isSimul then
    { σ with
        notes := addNote (σ.nextId + 1) t2 now dur true (addNote σ.nextId t1 now dur true σ.notes)
        nextId := σ.nextId + 2 }
  else
    { σ with notes := addNote σ.nextId t1 now dur false σ.notes, nextId := σ.nextId + 1 }

/-- Environment events during play.  A `tap` carries the raw
`performance.now()` reading its handler sees; `frame` and `spawn` carry the
`video.currentTime * 1000` reading theirs see — exactly the two clock
sources the source code consults. -/
inductive Ev where
  | tap (target : ℕ) (perfNow : ℚ)
  | frame (videoNow : ℚ)
  | spawn (t1 t2 : ℕ) (isSimul : Bool) (videoNow dur : ℚ)

/-- One event step of the engine, returning the judgments emitted during the
step, each tagged with the id of the note that caused it. -/
def step (σ : GameState) : Ev → GameState × List (ℕ × Judgment)
  | .tap t perfNow =>
      let r := checkHit t (perfNow - σ.startTime) σ
      (r.1, r.2.toList)
  | .frame videoNow => frameStep videoNow σ
  | .spawn t1 t2 isSimul videoNow dur => (spawnNote t1 t2 isSimul videoNow dur σ, [])

/-- Run a list of events, concatenating all emissions. -/
def run (σ : GameState) : List Ev → GameState × List (ℕ × Judgment)
  | [] => (σ, [])
  | e :: es =>
      let r := step σ e
      let r' := run r.1 es
      (r'.1, r.2 ++ r'.2)

/-- State at the start of play: no pending notes (game.js:238). -/
def initState : GameState :=
  { notes := [], session := freshSession, startTime := 0, nextId := 0 }

/-- Number of emissions attributed to note id `i`. -/
def countId (i : ℕ) (ems : List (ℕ × Judgment)) : ℕ :=
  ems.countP fun e => e.1 == i

/-- JavaScript's `%` on integers (truncated remainder): for the divisors used
here (`100`), it agrees with `Int.emod` on non-negative dividends and negates
the remainder of the negated dividend otherwise. -/
def jsRem (a b : ℤ) : ℤ :=
  if 0 ≤ a then a % b else -((-a) % b)

/-- Beat-detector state threaded through `handleBeatDetection`: the
exponential moving average `avgEnergy` and `lastAnalysisTime`
(game.js:40-45, reset in analyzeAudio at game.js:321-322). -/
structure DetState where
  avgEnergy : ℚ
  lastAnalysisTime : ℚ
deriving DecidableEq, Repr

/-- A chart entry as returned by `handleBeatDetection` during analysis
(game.js:387): `{ time, intensity, isSimul }`. -/
structure Beat where
  time : ℚ
  intensity : ℚ
  isSimul : Bool
deriving DecidableEq, Repr

/-- The moving-average update at the top of `handleBeatDetection`
(game.js:369-370): seed with the raw energy while the average is still 0,
otherwise `avg * 0.95 + energy * 0.05`. -/
def emaUpdate (avgEnergy energy : ℚ) : ℚ :=
  if avgEnergy = 0 then energy
  else avgEnergy * (95 / 100) + energy * (5 / 100)

/-- The acceptance test of `handleBeatDetection` (game.js:372-378):
`isBeat && isTime && canSpawn`, where the beat test compares the energy
against the already-updated average (sensitivity 1.02, absolute floor 20),
`isTime` enforces the minimum beat interval, and `canSpawn` requires
`remainingTime > noteDuration + 500` with `remainingTime` computed from
`totalDuration` in seconds (game.js:375). -/
def beatAccepted (now energy totalDuration minInterval noteDuration : ℚ)
    (st : DetState) : Prop :=
  (emaUpdate st.avgEnergy energy * (102 / 100) < energy ∧ 20 < energy) ∧
    minInterval < now - st.lastAnalysisTime ∧
    noteDuration + 500 < totalDuration * 1000 - now

instance (now energy totalDuration minInterval noteDuration : ℚ) (st : DetState) :
    Decidable (beatAccepted now energy totalDuration minInterval noteDuration st) := by
  unfold beatAccepted
  infer_instance

/-- The chart entry built on acceptance (game.js:379-387):
`intensity = energy / avgEnergy` and
`isSimul = (Math.floor(now * 10) % 100) < (intensity > 1.6 ? 40 : 10)`. -/
def mkBeat (now energy : ℚ) (st : DetState) : Beat :=
  { time := now
    intensity := energy / emaUpdate st.avgEnergy energy
    isSimul := decide (jsRem ⌊now * 10⌋ 100 <
      (if (8 : ℚ) / 5 < energy / emaUpdate st.avgEnergy energy then (40 : ℤ) else 10)) }

/-- `handleBeatDetection(now, energy, totalDuration, minInterval, noteDuration)`
(game.js:368-395) in its analysis branch (`isAnalyzing = true`): update the
moving average, and on acceptance record `lastAnalysisTime = now` and return
the chart entry; otherwise keep `lastAnalysisTime`. -/
def handleBeatDetection (now energy totalDuration minInterval noteDuration : ℚ)
    (st : DetState) : DetState × Option Beat :=
  if beatAccepted now energy totalDuration minInterval noteDuration st then
    (⟨emaUpdate st.avgEnergy energy, now⟩, some (mkBeat now energy st))
  else
    (⟨emaUpdate st.avgEnergy energy, st.lastAnalysisTime⟩, none)

/-- The analysis loop of `analyzeAudio` (game.js:327-338) over an explicit,
time-ordered list of `(timeMs, energy)` samples: feed each sample to
`handleBeatDetection`, collecting the accepted beats. -/
def buildGo (totalDuration minInterval noteDuration : ℚ) :
    DetState → List (ℚ × ℚ) → List Beat
  | _, [] => []
  | st, s :: rest =>
      match handleBeatDetection s.1 s.2 totalDuration minInterval noteDuration st with
      | (st', some b) => b :: buildGo totalDuration minInterval noteDuration st' rest
      | (st', none) => buildGo totalDuration minInterval noteDuration st' rest

/-- The Chart Builder: run the analysis loop from the reset detector state
(`avgEnergy = 0`, `lastAnalysisTime = -minInterval`, game.js:321-322). -/
def buildChart (samples : List (ℚ × ℚ)) (totalDuration minInterval noteDuration : ℚ) :
    List Beat :=
  buildGo totalDuration minInterval noteDuration ⟨0, -minInterval⟩ samples

/-- `this.analysisData` (game.js:349-354). -/
structure AnalysisResult where
  totalNotes : ℕ
  perfectScore : ℕ
  targetScore : ℕ
  noteChart : List Beat
deriving DecidableEq, Repr

/-- Number of notes a chart entry will spawn: 2 when simultaneous, else 1
(the reducer at game.js:343). -/
def beatNotes (b : Beat) : ℕ :=
  if b.isSimul then 2 else 1

/-- The totals computation of `analyzeAudio` (game.js:342-354):
`totalNotes = Σ (isSimul ? 2 : 1)`, `baseScore = totalNotes * 1000`,
`comboBonus = 10 * (totalNotes * (totalNotes + 1) / 2)`. -/
def analyzeAudio (samples : List (ℚ × ℚ)) (totalDuration minInterval noteDuration : ℚ) :
    AnalysisResult :=
  let noteChart := buildChart samples totalDuration minInterval noteDuration
  let totalNotes := (noteChart.map beatNotes).sum
  let baseScore := totalNotes * 1000
  let comboBonus := 10 * (totalNotes * (totalNotes + 1) / 2)
  let perfectScore := baseScore + comboBonus
  { totalNotes := totalNotes, perfectScore := perfectScore,
    targetScore := perfectScore, noteChart := noteChart }

/-- Accumulator discipline of the `checkHit` scan: a running best diff, when
present, is always below the 180 ms hit window. -/
def accOK : Option (ℕ × ℚ) → Prop
  | none => True
  | some p => p.2 < 180

/-- A three-sample energy sequence used as a concrete chart-builder input:
a quiet seed sample, then two loud samples.  With `totalDuration = 10` s,
`minInterval = 250` ms and `noteDuration = 2000` ms it yields one
simultaneous beat (2 notes) and one single beat. -/
def demoSamples : List (ℚ × ℚ) :=
  [(0, 100), (1000, 200), (4009 / 2, 200)]

/-- The chart `demoSamples` produces. -/
def demoChart : List Beat :=
  [⟨1000, 40 / 21, true⟩, ⟨4009 / 2, 800 / 439, false⟩]

/-- A play state holding one unprocessed note spawned at media time 1000 ms
with a 2000 ms travel, so its arrival is media time 3000 ms; the wall-clock
`startTime` is 0. -/
def c3State : GameState :=
  { notes := [{ id := 0, targetIdx := 0, spawnTime := 1000, duration := 2000,
                isSimultaneous := false, processed := false }]
    session := freshSession
    startTime := 0
    nextId := 1 }

/-- Concrete event trace: spawn one note (target 0, media time 0, travel
100 ms), then a frame at media time 1000 ms, which times the note out. -/
def demoTrace : List Ev :=
  [Ev.spawn 0 1 false 0 100, Ev.frame 1000]

/-- The retired note left pending after `demoTrace` (still inside the 1000 ms
retention grace period). -/
def demoNote : Note :=
  { id := 0, targetIdx := 0, spawnTime := 0, duration := 100,
    isSimultaneous := false, processed := true }

/-- A state with a single unprocessed note on target 0 arriving at time
1000 ms, for exercising `checkHit` and `sweepEmits` concretely. -/
def demoHitState : GameState :=
  { notes := [{ id := 7, targetIdx := 0, spawnTime := 0, duration := 1000,
                isSimultaneous := false, processed := false }]
    session := freshSession
    startTime := 0
    nextId := 8 }

/-- Invariant tying a game state to the judgments emitted so far along a
trace: note ids are distinct and below the allocation counter, every id was
judged at most once, and ids of still-unprocessed notes or of notes not yet
allocated were never judged. -/
structure TraceInv (σ : GameState) (ems : List (ℕ × Judgment)) : Prop where
  nodup : (σ.notes.map Note.id).Nodup
  bounded : ∀ n ∈ σ.notes, n.id < σ.nextId
  once : ∀ i, countId i ems ≤ 1
  unproc : ∀ n ∈ σ.notes, n.processed = false → countId n.id ems = 0
  fresh : ∀ i, σ.nextId ≤ i → countId i ems = 0

lemma applyJudgment_hp_bounds (j : Judgment) (b : Bool) (s : Session) :
    0 ≤ (applyJudgment j b s).currentHP ∧ (applyJudgment j b s).currentHP ≤ maxHP := by
  have hmax : (0 : ℤ) ≤ maxHP := by norm_num [maxHP]
  cases j <;>
    exact ⟨le_min hmax (le_max_left 0 _), min_le_left _ _⟩

lemma applySeq_hp_bounds (js : List Judgment) (s : Session)
    (h0 : 0 ≤ s.currentHP) (h1 : s.currentHP ≤ maxHP) :
    0 ≤ (applySeq js s).currentHP ∧ (applySeq js s).currentHP ≤ maxHP := by
  induction js generalizing s with
  | nil => exact ⟨h0, h1⟩
  | cons j js ih =>
      have hb := applyJudgment_hp_bounds j true s
      simpa [applySeq] using ih (applyJudgment j true s) hb.1 hb.2

/-- C9: for every sequence of judgments applied to a fresh session, the
health value stays within `[0, maxHP]` after each application (every prefix
of a sequence is itself a sequence, so this covers each intermediate state). -/
theorem health_within_bounds (js : List Judgment) :
    0 ≤ (applySeq js freshSession).currentHP ∧
      (applySeq js freshSession).currentHP ≤ maxHP :=
  applySeq_hp_bounds js freshSession (by norm_num [freshSession, maxHP])
    (by norm_num [freshSession])

/-- C2 counterexample: from a fresh session (health already at `maxHP`), a
PERFECT judgment leaves health at 100 rather than changing it by +1, because
the source clamps every health write at `maxHP` (game.js:593). -/
theorem perfect_heal_capped_cex :
    (applyJudgment .PERFECT true freshSession).currentHP ≠
      freshSession.currentHP + 1 := by
  decide

/-- C2 (amended): judgment application updates combo, counters and score
exactly as claimed, with the post-increment combo feeding the score bonus;
health changes by -10 / +1 / 0 / -2 but clamped into `[0, maxHP]`, and the
sequence [PERFECT, PERFECT, MISS, GREAT] from a fresh session yields scores
1010, 2030, 2030, 2790 with combos 1, 2, 0, 1. -/
theorem applyJudgment_rules (s : Session) (h0 : 0 ≤ s.currentHP)
    (h1 : s.currentHP ≤ maxHP) :
    applyJudgment .MISS true s =
      { s with combo := 0, stats := { s.stats with miss := s.stats.miss + 1 },
               currentHP := max 0 (s.currentHP - 10) } ∧
    applyJudgment .PERFECT true s =
      { s with combo := s.combo + 1, maxCombo := max (s.combo + 1) s.maxCombo,
               stats := { s.stats with perfect := s.stats.perfect + 1 },
               score := s.score + (1000 + (s.combo + 1) * 10),
               currentHP := min maxHP (s.currentHP + 1) } ∧
    applyJudgment .GREAT true s =
      { s with combo := s.combo + 1, maxCombo := max (s.combo + 1) s.maxCombo,
               stats := { s.stats with great := s.stats.great + 1 },
               score := s.score + (750 + (s.combo + 1) * 10),
               currentHP := s.currentHP } ∧
    applyJudgment .GOOD true s =
      { s with combo := s.combo + 1, maxCombo := max (s.combo + 1) s.maxCombo,
               stats := { s.stats with good := s.stats.good + 1 },
               score := s.score + (500 + (s.combo + 1) * 10),
               currentHP := max 0 (s.currentHP - 2) } ∧
    [(applySeq [.PERFECT] freshSession).score,
     (applySeq [.PERFECT, .PERFECT] freshSession).score,
     (applySeq [.PERFECT, .PERFECT, .MISS] freshSession).score,
     (applySeq [.PERFECT, .PERFECT, .MISS, .GREAT] freshSession).score] =
      [1010, 2030, 2030, 2790] ∧
    [(applySeq [.PERFECT] freshSession).combo,
     (applySeq [.PERFECT, .PERFECT] freshSession).combo,
     (applySeq [.PERFECT, .PERFECT, .MISS] freshSession).combo,
     (applySeq [.PERFECT, .PERFECT, .MISS, .GREAT] freshSession).combo] =
      [1, 2, 0, 1] ∧
    (applySeq [.PERFECT, .PERFECT] freshSession).maxCombo = 2 := by
  have hmax : (0 : ℤ) ≤ maxHP := by norm_num [maxHP]
  have hmiss : min maxHP (max 0 (s.currentHP - 10)) = max 0 (s.currentHP - 10) :=
    min_eq_right (max_le hmax (by linarith))
  have hperf : max 0 (s.currentHP + 1) = s.currentHP + 1 := max_eq_right (by linarith)
  have hgreat : min maxHP (max 0 s.currentHP) = s.currentHP := by
    rw [max_eq_right h0]
    exact min_eq_right h1
  have hgood : min maxHP (max 0 (s.currentHP + (-2))) = max 0 (s.currentHP - 2) := by
    have h2 : s.currentHP + (-2) = s.currentHP - 2 := by ring
    rw [h2]
    exact min_eq_right (max_le hmax (by linarith))
  refine ⟨?_, ?_, ?_, ?_, by decide, by decide, by decide⟩
  · simp [applyJudgment, hmiss]
  · simp [applyJudgment, hperf]
  · simp [applyJudgment, hgreat]
  · simp [applyJudgment, hgood]

/-- Witness for `applyJudgment_rules` at the fresh session. -/
theorem applyJudgment_rules_witness :
    applyJudgment .GREAT true freshSession =
      { freshSession with
          combo := 1, maxCombo := 1,
          stats := { freshSession.stats with great := 1 },
          score := 760, currentHP := freshSession.currentHP } :=
  ((applyJudgment_rules freshSession (by decide) (by decide)).2.2.1).trans (by decide)

lemma tri_eq (n : ℕ) :
    n * 1000 + 10 * (n * (n + 1) / 2) = n * 1000 + 10 * n * (n + 1) / 2 := by
  obtain ⟨k, hk⟩ := Nat.even_mul_succ_self n
  rw [mul_assoc, hk]
  omega

/-- C5: for every chart the builder produces, `totalNotes` is the sum of
2-per-simultaneous / 1-per-single over the chart entries, and
`perfectScore = totalNotes * 1000 + 10 * totalNotes * (totalNotes + 1) / 2`;
an empty chart gives totals 0, and the concrete `demoSamples` chart has
`totalNotes = 3` and `perfectScore = 3060`. -/
theorem analysis_totals (samples : List (ℚ × ℚ)) (dur minI nd : ℚ) :
    (analyzeAudio samples dur minI nd).totalNotes =
        ((analyzeAudio samples dur minI nd).noteChart.map beatNotes).sum ∧
    (analyzeAudio samples dur minI nd).perfectScore =
        (analyzeAudio samples dur minI nd).totalNotes * 1000 +
          10 * (analyzeAudio samples dur minI nd).totalNotes *
            ((analyzeAudio samples dur minI nd).totalNotes + 1) / 2 ∧
    ((analyzeAudio samples dur minI nd).noteChart = [] →
      (analyzeAudio samples dur minI nd).totalNotes = 0 ∧
        (analyzeAudio samples dur minI nd).perfectScore = 0) ∧
    (analyzeAudio demoSamples 10 250 2000).totalNotes = 3 ∧
    (analyzeAudio demoSamples 10 250 2000).perfectScore = 3060 := by
  refine ⟨rfl, tri_eq _, ?_, ?_, ?_⟩
  · intro h
    simp only [analyzeAudio] at h ⊢
    rw [h]
    simp
  · norm_num [analyzeAudio, buildChart, buildGo, handleBeatDetection, beatAccepted,
      emaUpdate, mkBeat, demoSamples, jsRem, beatNotes]
  · norm_num [analyzeAudio, buildChart, buildGo, handleBeatDetection, beatAccepted,
      emaUpdate, mkBeat, demoSamples, jsRem, beatNotes]

/-- Witness for `analysis_totals`: the empty-chart implication discharged at
the empty sample list. -/
theorem analysis_totals_witness :
    (analyzeAudio [] 10 250 2000).totalNotes = 0 ∧
      (analyzeAudio [] 10 250 2000).perfectScore = 0 :=
  (analysis_totals [] 10 250 2000).2.2.1 rfl

lemma demoChart_eq : buildChart demoSamples 10 250 2000 = demoChart := by
  norm_num [buildChart, buildGo, handleBeatDetection, beatAccepted, emaUpdate, mkBeat,
      demoSamples, demoChart, jsRem]

lemma hbd_none (now e dur minI nd : ℚ) (st st' : DetState)
    (h : handleBeatDetection now e dur minI nd st = (st', none)) :
    st'.lastAnalysisTime = st.lastAnalysisTime := by
  by_cases hc : beatAccepted now e dur minI nd st
  · rw [handleBeatDetection, if_pos hc] at h
    exact absurd (congrArg Prod.snd h) (by simp)
  · rw [handleBeatDetection, if_neg hc] at h
    have h1 : (⟨emaUpdate st.avgEnergy e, st.lastAnalysisTime⟩ : DetState) = st' :=
      congrArg Prod.fst h
    rw [← h1]

lemma hbd_some (now e dur minI nd : ℚ) (st st' : DetState) (b : Beat)
    (h : handleBeatDetection now e dur minI nd st = (st', some b)) :
    b.time = now ∧ st'.lastAnalysisTime = now ∧
      minI < now - st.lastAnalysisTime ∧ nd + 500 < dur * 1000 - now ∧
      b.isSimul = decide (jsRem ⌊b.time * 10⌋ 100 <
        (if (8 : ℚ) / 5 < b.intensity then (40 : ℤ) else 10)) := by
  by_cases hc : beatAccepted now e dur minI nd st
  · rw [handleBeatDetection, if_pos hc] at h
    have h1 : (⟨emaUpdate st.avgEnergy e, now⟩ : DetState) = st' :=
      congrArg Prod.fst h
    have h2 : some (mkBeat now e st) = some b := congrArg Prod.snd h
    obtain rfl : mkBeat now e st = b := Option.some.inj h2
    exact ⟨rfl, by rw [← h1], hc.2.1, hc.2.2, rfl⟩
  · rw [handleBeatDetection, if_neg hc] at h
    exact absurd (congrArg Prod.snd h) (by simp)

lemma buildGo_head_lb (dur minI nd : ℚ) :
    ∀ (samples : List (ℚ × ℚ)) (st : DetState) (b : Beat) (rest : List Beat),
      buildGo dur minI nd st samples = b :: rest →
      st.lastAnalysisTime + minI < b.time := by
  intro samples
  induction samples with
  | nil => intro st b rest h; exact absurd h (by simp [buildGo])
  | cons s ss ih =>
      intro st b rest h
      rcases hh : handleBeatDetection s.1 s.2 dur minI nd st with ⟨st2, ob⟩
      rw [buildGo, hh] at h
      cases ob with
      | some b2 =>
          obtain ⟨hb, _⟩ := List.cons.inj h
          obtain ⟨ht, _, hgap, _⟩ := hbd_some _ _ _ _ _ _ _ _ hh
          rw [← hb, ht]
          linarith
      | none =>
          have hlast := hbd_none _ _ _ _ _ _ _ hh
          have := ih st2 b rest h
          rw [hlast] at this
          exact this

lemma buildGo_chain (dur minI nd : ℚ) :
    ∀ (samples : List (ℚ × ℚ)) (st : DetState),
      List.Chain' (fun a b : Beat => a.time + minI < b.time)
        (buildGo dur minI nd st samples) := by
  intro samples
  induction samples with
  | nil => intro st; simp [buildGo]
  | cons s ss ih =>
      intro st
      rcases hh : handleBeatDetection s.1 s.2 dur minI nd st with ⟨st2, ob⟩
      rw [buildGo, hh]
      cases ob with
      | none => exact ih st2
      | some b =>
          refine List.chain'_cons'.mpr ⟨?_, ih st2⟩
          intro y hy
          cases hbg : buildGo dur minI nd st2 ss with
          | nil => rw [hbg] at hy; simp at hy
          | cons b2 r2 =>
              rw [hbg] at hy
              simp only [List.head?_cons, Option.mem_def, Option.some.injEq] at hy
              obtain ⟨ht, hlast, _, _⟩ := hbd_some _ _ _ _ _ _ _ _ hh
              have hlb := buildGo_head_lb dur minI nd ss st2 b2 r2 hbg
              rw [hlast, ← ht] at hlb
              exact hy ▸ hlb

lemma buildGo_mem (dur minI nd : ℚ) :
    ∀ (samples : List (ℚ × ℚ)) (st : DetState) (b : Beat),
      b ∈ buildGo dur minI nd st samples →
      b.time < dur * 1000 - (nd + 500) ∧ (∃ s ∈ samples, b.time = s.1) ∧
        b.isSimul = decide (jsRem ⌊b.time * 10⌋ 100 <
          (if (8 : ℚ) / 5 < b.intensity then (40 : ℤ) else 10)) := by
  intro samples
  induction samples with
  | nil => intro st b hb; exact absurd hb (by simp [buildGo])
  | cons s ss ih =>
      intro st b hb
      rcases hh : handleBeatDetection s.1 s.2 dur minI nd st with ⟨st2, ob⟩
      rw [buildGo, hh] at hb
      cases ob with
      | none =>
          obtain ⟨h1, h2, h3⟩ := ih st2 b hb
          exact ⟨h1, by obtain ⟨u, hu, hut⟩ := h2; exact ⟨u, List.mem_cons_of_mem _ hu, hut⟩, h3⟩
      | some b2 =>
          rcases List.mem_cons.mp hb with hcase | hcase
          · obtain ⟨ht, _, _, hcut, hsim⟩ := hbd_some _ _ _ _ _ _ _ _ hh
            subst hcase
            refine ⟨by linarith, ⟨s, List.mem_cons_self _ _, ht⟩, hsim⟩
          · obtain ⟨h1, h2, h3⟩ := ih st2 b hcase
            exact ⟨h1, by obtain ⟨u, hu, hut⟩ := h2; exact ⟨u, List.mem_cons_of_mem _ hu, hut⟩, h3⟩

/-- C6: in every chart the builder produces, each consecutive pair of
accepted entries is separated by strictly more than `minBeatIntervalMs`. -/
theorem chart_min_spacing (samples : List (ℚ × ℚ)) (dur minI nd : ℚ) :
    List.Chain' (fun a b : Beat => a.time + minI < b.time)
      (buildChart samples dur minI nd) :=
  buildGo_chain dur minI nd samples ⟨0, -minI⟩

/-- C7: no chart entry lies later than `trackDurationMs - (noteTravelMs + 500)`
(the builder in fact guarantees a strict bound), and a track shorter than
`noteTravelMs + 500` yields an empty chart for any sample sequence with
non-negative sample times. -/
theorem chart_end_cutoff (samples : List (ℚ × ℚ)) (dur minI nd : ℚ) :
    (∀ b ∈ buildChart samples dur minI nd, b.time ≤ dur * 1000 - (nd + 500)) ∧
    ((∀ s ∈ samples, 0 ≤ s.1) → dur * 1000 < nd + 500 →
      buildChart samples dur minI nd = []) := by
  constructor
  · intro b hb
    exact le_of_lt (buildGo_mem dur minI nd samples _ b hb).1
  · intro hpos hshort
    cases hbg : buildChart samples dur minI nd with
    | nil => rfl
    | cons b r =>
        exfalso
        have hb : b ∈ buildChart samples dur minI nd := by
          rw [hbg]; exact List.mem_cons_self _ _
        obtain ⟨hlt, ⟨s, hs, hts⟩, _⟩ := buildGo_mem dur minI nd samples _ b hb
        have h0 := hpos s hs
        rw [hts] at hlt
        linarith

/-- Witness for `chart_end_cutoff`: the first demo-chart entry respects the
cutoff, and a 100 ms track (shorter than `noteTravelMs + 500 = 2500` ms)
yields an empty chart. -/
theorem chart_end_cutoff_witness :
    ((⟨1000, 40 / 21, true⟩ : Beat).time ≤ 10 * 1000 - (2000 + 500)) ∧
      buildChart [((0 : ℚ), (100 : ℚ))] (1 / 10) 250 2000 = [] := by
  constructor
  · refine (chart_end_cutoff demoSamples 10 250 2000).1 _ ?_
    rw [demoChart_eq]
    exact List.mem_cons_self _ _
  · refine (chart_end_cutoff [((0 : ℚ), (100 : ℚ))] (1 / 10) 250 2000).2 ?_ (by norm_num)
    intro s hs
    rw [List.mem_singleton] at hs
    rw [hs]

/-- C8: the Chart Builder is a pure function of its sample sequence — equal
inputs give equal charts — and every entry's `isSimultaneous` flag is the
stated deterministic function of its timestamp and intensity
(`(Math.floor(time * 10) % 100) < (intensity > 1.6 ? 40 : 10)`). -/
theorem chart_deterministic (s1 s2 : List (ℚ × ℚ)) (dur minI nd : ℚ) (h : s1 = s2) :
    buildChart s1 dur minI nd = buildChart s2 dur minI nd ∧
    ∀ b ∈ buildChart s1 dur minI nd,
      b.isSimul = decide (jsRem ⌊b.time * 10⌋ 100 <
        (if (8 : ℚ) / 5 < b.intensity then (40 : ℤ) else 10)) := by
  subst h
  refine ⟨rfl, ?_⟩
  intro b hb
  exact (buildGo_mem dur minI nd s1 _ b hb).2.2

/-- Witness for `chart_deterministic` at the demo chart's first entry. -/
theorem chart_deterministic_witness :
    buildChart demoSamples 10 250 2000 = buildChart demoSamples 10 250 2000 ∧
      (⟨1000, 40 / 21, true⟩ : Beat).isSimul =
        decide (jsRem ⌊((1000 : ℚ)) * 10⌋ 100 <
          (if (8 : ℚ) / 5 < ((40 : ℚ) / 21) then (40 : ℤ) else 10)) := by
  refine ⟨(chart_deterministic demoSamples demoSamples 10 250 2000 rfl).1, ?_⟩
  have := (chart_deterministic demoSamples demoSamples 10 250 2000 rfl).2
    ⟨1000, 40 / 21, true⟩ (by rw [demoChart_eq]; exact List.mem_cons_self _ _)
  exact this

lemma takesBest_lt_180 (d : ℚ) (best : Option (ℕ × ℚ)) (h : takesBest d best = true) :
    d < 180 := by
  cases best with
  | none => simpa [takesBest] using h
  | some p => exact (by simpa [takesBest] using h : d < 180 ∧ d < p.2).1

lemma takesBest_none_iff (d : ℚ) : takesBest d none = true ↔ d < 180 := by
  simp [takesBest]

lemma takesBest_some_iff (d : ℚ) (p : ℕ × ℚ) :
    takesBest d (some p) = true ↔ d < 180 ∧ d < p.2 := by
  simp [takesBest]

lemma bestCandAux_acc_ne_none (t : ℕ) (now : ℚ) :
    ∀ (l : List Note) (i : ℕ) (p : ℕ × ℚ), bestCandAux t now l i (some p) ≠ none := by
  intro l
  induction l with
  | nil => intro i p h; exact Option.noConfusion h
  | cons n rest ih =>
      intro i p h
      by_cases hc : n.targetIdx = t ∧ n.processed = false ∧
          takesBest (noteDiff now n) (some p) = true
      · rw [bestCandAux, if_pos hc] at h
        exact ih _ _ h
      · rw [bestCandAux, if_neg hc] at h
        exact ih _ _ h

lemma bestCandAux_none_iff (t : ℕ) (now : ℚ) :
    ∀ (l : List Note) (i : ℕ),
      bestCandAux t now l i none = none ↔
        ∀ n ∈ l, ¬(n.targetIdx = t ∧ n.processed = false ∧ noteDiff now n < 180) := by
  intro l
  induction l with
  | nil => intro i; simp [bestCandAux]
  | cons n rest ih =>
      intro i
      by_cases hc : n.targetIdx = t ∧ n.processed = false ∧
          takesBest (noteDiff now n) none = true
      · rw [bestCandAux, if_pos hc]
        constructor
        · intro h
          exact absurd h (bestCandAux_acc_ne_none t now rest (i + 1) _)
        · intro h
          exact absurd ⟨hc.1, hc.2.1, (takesBest_none_iff _).mp hc.2.2⟩
            (h n (List.mem_cons_self _ _))
      · rw [bestCandAux, if_neg hc]
        constructor
        · intro h m hm
          rcases List.mem_cons.mp hm with rfl | hm'
          · intro hq
            exact hc ⟨hq.1, hq.2.1, (takesBest_none_iff _).mpr hq.2.2⟩
          · exact (ih (i + 1)).mp h m hm'
        · intro h
          exact (ih (i + 1)).mpr fun m hm => h m (List.mem_cons_of_mem _ hm)

lemma bestCandAux_le_acc (t : ℕ) (now : ℚ) :
    ∀ (l : List Note) (i : ℕ) (p : ℕ × ℚ) (j : ℕ) (d : ℚ),
      bestCandAux t now l i (some p) = some (j, d) → d ≤ p.2 := by
  intro l
  induction l with
  | nil =>
      intro i p j d h
      obtain rfl := Option.some.inj h
      rfl
  | cons n rest ih =>
      intro i p j d h
      by_cases hc : n.targetIdx = t ∧ n.processed = false ∧
          takesBest (noteDiff now n) (some p) = true
      · rw [bestCandAux, if_pos hc] at h
        have h1 := ih (i + 1) (i, noteDiff now n) j d h
        have h2 := ((takesBest_some_iff _ _).mp hc.2.2).2
        exact le_of_lt (lt_of_le_of_lt h1 h2)
      · rw [bestCandAux, if_neg hc] at h
        exact ih (i + 1) p j d h

lemma bestCandAux_lt_180 (t : ℕ) (now : ℚ) :
    ∀ (l : List Note) (i : ℕ) (best : Option (ℕ × ℚ)) (j : ℕ) (d : ℚ),
      accOK best → bestCandAux t now l i best = some (j, d) → d < 180 := by
  intro l
  induction l with
  | nil =>
      intro i best j d hok h
      cases best with
      | none => exact Option.noConfusion h
      | some p =>
          obtain rfl := Option.some.inj h
          exact hok
  | cons n rest ih =>
      intro i best j d hok h
      by_cases hc : n.targetIdx = t ∧ n.processed = false ∧
          takesBest (noteDiff now n) best = true
      · rw [bestCandAux, if_pos hc] at h
        exact ih (i + 1) _ j d
          (show accOK (some (i, noteDiff now n)) from takesBest_lt_180 _ _ hc.2.2) h
      · rw [bestCandAux, if_neg hc] at h
        exact ih (i + 1) best j d hok h

lemma bestCandAux_min (t : ℕ) (now : ℚ) :
    ∀ (l : List Note) (i : ℕ) (best : Option (ℕ × ℚ)) (j : ℕ) (d : ℚ),
      accOK best → bestCandAux t now l i best = some (j, d) →
      ∀ m ∈ l, m.targetIdx = t → m.processed = false → d ≤ noteDiff now m := by
  intro l
  induction l with
  | nil => intro i best j d _ _ m hm; exact absurd hm (List.not_mem_nil m)
  | cons n rest ih =>
      intro i best j d hok h m hm ht hp
      by_cases hc : n.targetIdx = t ∧ n.processed = false ∧
          takesBest (noteDiff now n) best = true
      · rw [bestCandAux, if_pos hc] at h
        have hdn : noteDiff now n < 180 := takesBest_lt_180 _ _ hc.2.2
        rcases List.mem_cons.mp hm with rfl | hm'
        · exact bestCandAux_le_acc t now rest (i + 1) (i, noteDiff now m) j d h
        · exact ih (i + 1) (some (i, noteDiff now n)) j d hdn h m hm' ht hp
      · rw [bestCandAux, if_neg hc] at h
        rcases List.mem_cons.mp hm with rfl | hm'
        · have htb : ¬ takesBest (noteDiff now m) best = true := fun hb => hc ⟨ht, hp, hb⟩
          cases best with
          | none =>
              have h180 : ¬ noteDiff now m < 180 := fun hlt =>
                htb ((takesBest_none_iff _).mpr hlt)
              have hd := bestCandAux_lt_180 t now rest (i + 1) none j d trivial h
              linarith [not_lt.mp h180]
          | some p =>
              have hp2 : p.2 < 180 := hok
              rcases not_and_or.mp fun hand => htb ((takesBest_some_iff _ _).mpr hand)
                with h180 | hge
              · have hd := bestCandAux_lt_180 t now rest (i + 1) (some p) j d hok h
                linarith [not_lt.mp h180]
              · have hd := bestCandAux_le_acc t now rest (i + 1) p j d h
                linarith [not_lt.mp hge]
        · exact ih (i + 1) best j d hok h m hm' ht hp

lemma bestCandAux_src (t : ℕ) (now : ℚ) :
    ∀ (l : List Note) (i : ℕ) (best : Option (ℕ × ℚ)) (j : ℕ) (d : ℚ),
      bestCandAux t now l i best = some (j, d) →
      best = some (j, d) ∨
        ∃ k n, l[k]? = some n ∧ j = i + k ∧ n.targetIdx = t ∧ n.processed = false ∧
          d = noteDiff now n ∧ d < 180 := by
  intro l
  induction l with
  | nil => intro i best j d h; exact Or.inl h
  | cons n rest ih =>
      intro i best j d h
      by_cases hc : n.targetIdx = t ∧ n.processed = false ∧
          takesBest (noteDiff now n) best = true
      · rw [bestCandAux, if_pos hc] at h
        rcases ih (i + 1) (some (i, noteDiff now n)) j d h with hacc | hsrc
        · have hpair := Option.some.inj hacc
          have hji : i = j := congrArg Prod.fst hpair
          have hdn : noteDiff now n = d := congrArg Prod.snd hpair
          exact Or.inr ⟨0, n, by simp, by omega, hc.1, hc.2.1, hdn.symm,
            hdn ▸ takesBest_lt_180 _ _ hc.2.2⟩
        · obtain ⟨k, m, hk, hj, hq1, hq2, hd, h180⟩ := hsrc
          exact Or.inr ⟨k + 1, m, by simpa using hk, by omega, hq1, hq2, hd, h180⟩
      · rw [bestCandAux, if_neg hc] at h
        rcases ih (i + 1) best j d h with hacc | hsrc
        · exact Or.inl hacc
        · obtain ⟨k, m, hk, hj, hq1, hq2, hd, h180⟩ := hsrc
          exact Or.inr ⟨k + 1, m, by simpa using hk, by omega, hq1, hq2, hd, h180⟩

lemma judgeTier_cases (d : ℚ) :
    (d < 60 → judgeTier d = Judgment.PERFECT) ∧
      (60 ≤ d → d < 120 → judgeTier d = Judgment.GREAT) ∧
      (120 ≤ d → d < 180 → judgeTier d = Judgment.GOOD) := by
  unfold judgeTier
  split_ifs with h1 h2 <;>
    refine ⟨?_, ?_, ?_⟩ <;> intros <;> first | rfl | linarith

lemma judgeTier_ne_miss (d : ℚ) : judgeTier d ≠ Judgment.MISS := by
  unfold judgeTier
  split_ifs <;> simp

/-- C1: `checkHit` emits no judgment and leaves the state unchanged exactly
when no unprocessed note on the tapped target has `diff < 180`; otherwise it
judges a note of minimal diff among the qualifying ones, with PERFECT for
`diff < 60`, GREAT for `60 ≤ diff < 120`, GOOD for `120 ≤ diff < 180`. -/
theorem checkHit_judgment (t : ℕ) (now : ℚ) (σ : GameState) :
    ((checkHit t now σ).2 = none ↔
      ∀ n ∈ σ.notes, ¬(n.targetIdx = t ∧ n.processed = false ∧ noteDiff now n < 180)) ∧
    ((checkHit t now σ).2 = none → checkHit t now σ = (σ, none)) ∧
    (∀ idj, (checkHit t now σ).2 = some idj →
      ∃ (k : ℕ) (n : Note), σ.notes[k]? = some n ∧ idj.1 = n.id ∧
        n.targetIdx = t ∧ n.processed = false ∧ noteDiff now n < 180 ∧
        (∀ m ∈ σ.notes, m.targetIdx = t → m.processed = false →
          noteDiff now n ≤ noteDiff now m) ∧
        idj.2 = judgeTier (noteDiff now n) ∧
        (noteDiff now n < 60 → idj.2 = Judgment.PERFECT) ∧
        (60 ≤ noteDiff now n → noteDiff now n < 120 → idj.2 = Judgment.GREAT) ∧
        (120 ≤ noteDiff now n → noteDiff now n < 180 → idj.2 = Judgment.GOOD)) := by
  refine ⟨⟨?_, ?_⟩, ?_, ?_⟩
  · intro h
    cases hbc : bestCand t now σ.notes with
    | none => exact (bestCandAux_none_iff t now σ.notes 0).mp hbc
    | some p =>
        obtain ⟨i, d⟩ := p
        simp [checkHit, hbc] at h
  · intro hno
    have hbc : bestCand t now σ.notes = none :=
      (bestCandAux_none_iff t now σ.notes 0).mpr hno
    simp [checkHit, hbc]
  · intro h
    cases hbc : bestCand t now σ.notes with
    | none => simp [checkHit, hbc]
    | some p =>
        obtain ⟨i, d⟩ := p
        simp [checkHit, hbc] at h
  · intro idj h
    cases hbc : bestCand t now σ.notes with
    | none => simp [checkHit, hbc] at h
    | some p =>
        obtain ⟨i, d⟩ := p
        rcases bestCandAux_src t now σ.notes 0 none i d hbc with hacc | hsrc
        · exact Option.noConfusion hacc
        · obtain ⟨k, n, hk, hik, ht, hp, hd, h180⟩ := hsrc
          have hik0 : i = k := by omega
          subst hik0
          have hval : idj = ((σ.notes[i]?.map Note.id).getD 0, judgeTier d) := by
            simp only [checkHit, hbc] at h
            exact (Option.some.inj h).symm
          have hid : idj.1 = n.id := by rw [hval, hk]; rfl
          have hmin := bestCandAux_min t now σ.notes 0 none i d trivial hbc
          have htier := judgeTier_cases (noteDiff now n)
          refine ⟨i, n, hk, hid, ht, hp, hd ▸ h180, ?_, ?_, ?_, ?_, ?_⟩
          · intro m hm hmt hmp
            exact hd ▸ hmin m hm hmt hmp
          · rw [hval, ← hd]
          · intro hlt
            rw [hval]
            show judgeTier d = Judgment.PERFECT
            rw [hd]
            exact htier.1 hlt
          · intro hge hlt
            rw [hval]
            show judgeTier d = Judgment.GREAT
            rw [hd]
            exact htier.2.1 hge hlt
          · intro hge hlt
            rw [hval]
            show judgeTier d = Judgment.GOOD
            rw [hd]
            exact htier.2.2 hge hlt

/-- Witness for `checkHit_judgment`: tapping target 0 at time 1000 in
`demoHitState` judges the pending note (arrival 1000, diff 0) as PERFECT. -/
theorem checkHit_judgment_witness :
    ∃ (k : ℕ) (n : Note), demoHitState.notes[k]? = some n ∧
      (7, Judgment.PERFECT).1 = n.id ∧
      n.targetIdx = 0 ∧ n.processed = false ∧ noteDiff 1000 n < 180 ∧
      (∀ m ∈ demoHitState.notes, m.targetIdx = 0 → m.processed = false →
        noteDiff 1000 n ≤ noteDiff 1000 m) ∧
      (7, Judgment.PERFECT).2 = judgeTier (noteDiff 1000 n) ∧
      (noteDiff 1000 n < 60 → (7, Judgment.PERFECT).2 = Judgment.PERFECT) ∧
      (60 ≤ noteDiff 1000 n → noteDiff 1000 n < 120 →
        (7, Judgment.PERFECT).2 = Judgment.GREAT) ∧
      (120 ≤ noteDiff 1000 n → noteDiff 1000 n < 180 →
        (7, Judgment.PERFECT).2 = Judgment.GOOD) :=
  (checkHit_judgment 0 1000 demoHitState).2.2 (7, Judgment.PERFECT)
    (by norm_num [checkHit, bestCand, bestCandAux, takesBest, noteDiff, Note.arrival,
      demoHitState, judgeTier])

/-- C10: a matched tap is never judged MISS — `checkHit` only ever emits
PERFECT, GREAT or GOOD — and the timeout sweep emits exactly MISS, and only
for unprocessed notes whose arrival lies more than the 180 ms hit window in
the past. -/
theorem matched_tap_not_miss (t : ℕ) (now : ℚ) (σ : GameState) :
    (∀ idj, (checkHit t now σ).2 = some idj → idj.2 ≠ Judgment.MISS) ∧
    (∀ e ∈ sweepEmits now σ.notes, e.2 = Judgment.MISS ∧
      ∃ n ∈ σ.notes, e.1 = n.id ∧ n.processed = false ∧ n.arrival + 180 < now) := by
  constructor
  · intro idj h
    cases hbc : bestCand t now σ.notes with
    | none => simp [checkHit, hbc] at h
    | some p =>
        obtain ⟨i, d⟩ := p
        have hval : idj = ((σ.notes[i]?.map Note.id).getD 0, judgeTier d) := by
          simp only [checkHit, hbc] at h
          exact (Option.some.inj h).symm
        rw [hval]
        exact judgeTier_ne_miss d
  · intro e he
    simp only [sweepEmits, List.mem_map, List.mem_filter] at he
    obtain ⟨n, ⟨hn, hcond⟩, rfl⟩ := he
    simp only [Bool.and_eq_true, Bool.not_eq_true', decide_eq_true_eq] at hcond
    exact ⟨rfl, n, hn, rfl, hcond.1, hcond.2⟩

/-- Witness for `matched_tap_not_miss`: the PERFECT emitted by `checkHit`
at time 1000 in `demoHitState` is not MISS, and the sweep at time 2000
retires the same note (arrival 1000) with a MISS. -/
theorem matched_tap_not_miss_witness :
    (7, Judgment.PERFECT).2 ≠ Judgment.MISS ∧
      ((7, Judgment.MISS).2 = Judgment.MISS ∧
        ∃ n ∈ demoHitState.notes, (7, Judgment.MISS).1 = n.id ∧
          n.processed = false ∧ n.arrival + 180 < 2000) := by
  constructor
  · exact (matched_tap_not_miss 0 1000 demoHitState).1 (7, Judgment.PERFECT)
      (by norm_num [checkHit, bestCand, bestCandAux, takesBest, noteDiff, Note.arrival,
        demoHitState, judgeTier])
  · exact (matched_tap_not_miss 0 2000 demoHitState).2 (7, Judgment.MISS)
      (by norm_num [sweepEmits, demoHitState, Note.arrival])

lemma setProcessed_map_id (l : List Note) (k : ℕ) :
    (setProcessed l k).map Note.id = l.map Note.id := by
  induction l generalizing k with
  | nil => rfl
  | cons n rest ih =>
      cases k with
      | zero => simp [setProcessed]
      | succ k => simp [setProcessed, ih k]

lemma setProcessed_getElem? (l : List Note) (k p : ℕ) :
    (setProcessed l k)[p]? =
      if p = k then l[k]?.map (fun n => { n with processed := true }) else l[p]? := by
  induction l generalizing k p with
  | nil => simp [setProcessed]
  | cons n rest ih =>
      cases k with
      | zero =>
          cases p with
          | zero => simp [setProcessed]
          | succ q => simp [setProcessed]
      | succ k =>
          cases p with
          | zero => simp [setProcessed]
          | succ q => simpa [setProcessed] using ih k q

lemma mem_setProcessed_unproc (l : List Note) (k : ℕ) (m : Note)
    (hm : m ∈ setProcessed l k) (hp : m.processed = false) :
    ∃ p, p ≠ k ∧ l[p]? = some m := by
  obtain ⟨p, hp'⟩ := List.mem_iff_getElem?.mp hm
  rw [setProcessed_getElem? l k p] at hp'
  by_cases hpk : p = k
  · rw [if_pos hpk] at hp'
    cases hl : l[k]? with
    | none => rw [hl] at hp'; exact absurd hp' (by simp)
    | some n0 =>
        rw [hl] at hp'
        have : { n0 with processed := true } = m := Option.some.inj hp'
        rw [← this] at hp
        exact absurd hp (by simp)
  · rw [if_neg hpk] at hp'
    exact ⟨p, hpk, hp'⟩

lemma mem_of_mem_setProcessed_id (l : List Note) (k : ℕ) (m : Note)
    (hm : m ∈ setProcessed l k) : ∃ n ∈ l, n.id = m.id := by
  have h1 : m.id ∈ (setProcessed l k).map Note.id := List.mem_map_of_mem _ hm
  rw [setProcessed_map_id] at h1
  obtain ⟨n, hn, hid⟩ := List.mem_map.mp h1
  exact ⟨n, hn, hid⟩

lemma sweepOne_id (now : ℚ) (n : Note) : (sweepOne now n).id = n.id := by
  unfold sweepOne
  split <;> rfl

lemma sweepOne_processed_false (now : ℚ) (n : Note)
    (h : (sweepOne now n).processed = false) :
    n.processed = false ∧ ¬(n.arrival + 180 < now) := by
  unfold sweepOne at h
  split at h
  · exact absurd h (by simp)
  · next hc =>
      refine ⟨h, fun hd => hc ⟨h, hd⟩⟩

lemma map_sweepOne_id (now : ℚ) (l : List Note) :
    (l.map (sweepOne now)).map Note.id = l.map Note.id := by
  rw [List.map_map]
  exact List.map_congr_left fun n _ => sweepOne_id now n

lemma countId_append (i : ℕ) (a b : List (ℕ × Judgment)) :
    countId i (a ++ b) = countId i a + countId i b :=
  List.countP_append _ _ _

lemma countId_nil (i : ℕ) : countId i [] = 0 := rfl

lemma countId_single (i : ℕ) (e : ℕ × Judgment) :
    countId i [e] = if e.1 = i then 1 else 0 := by
  by_cases h : e.1 = i <;> simp [countId, List.countP_cons, h]

lemma countId_sweepEmits_le_one (now : ℚ) (notes : List Note)
    (h : (notes.map Note.id).Nodup) (i : ℕ) :
    countId i (sweepEmits now notes) ≤ 1 := by
  unfold countId sweepEmits
  rw [List.countP_map]
  calc List.countP ((fun e : ℕ × Judgment => e.1 == i) ∘ fun n => (n.id, Judgment.MISS))
        (notes.filter fun n => !n.processed && decide (n.arrival + 180 < now))
      ≤ List.countP ((fun e : ℕ × Judgment => e.1 == i) ∘ fun n => (n.id, Judgment.MISS)) notes :=
        (List.filter_sublist notes).countP_le _
    _ = List.count i (notes.map Note.id) := by
        rw [List.count, List.countP_map]
        rfl
    _ ≤ 1 := List.nodup_iff_count_le_one.mp h i

lemma countId_sweepEmits_zero (now : ℚ) (notes : List Note) (i : ℕ)
    (h : ∀ n ∈ notes, n.id = i → ¬(n.processed = false ∧ n.arrival + 180 < now)) :
    countId i (sweepEmits now notes) = 0 := by
  unfold countId sweepEmits
  rw [List.countP_map, List.countP_eq_zero]
  intro n hn
  have hn' := List.mem_of_mem_filter hn
  have hcond := (List.mem_filter.mp hn).2
  simp only [Bool.and_eq_true, Bool.not_eq_true', decide_eq_true_eq] at hcond
  simp only [Function.comp, beq_iff_eq]
  intro hid
  exact h n hn' hid ⟨hcond.1, hcond.2⟩

lemma countId_sweepEmits_pos (now : ℚ) (notes : List Note) (i : ℕ)
    (h : countId i (sweepEmits now notes) ≠ 0) :
    ∃ n ∈ notes, n.id = i ∧ n.processed = false ∧ n.arrival + 180 < now := by
  by_contra hno
  push_neg at hno
  exact h (countId_sweepEmits_zero now notes i fun n hn hid =>
    fun hc => absurd hc.2 (not_lt.mpr (hno n hn hid hc.1)))

lemma checkHit_none_state (t : ℕ) (now : ℚ) (σ : GameState)
    (h : (checkHit t now σ).2 = none) : (checkHit t now σ).1 = σ := by
  cases hbc : bestCand t now σ.notes with
  | none => simp [checkHit, hbc]
  | some p =>
      obtain ⟨i, d⟩ := p
      simp [checkHit, hbc] at h

lemma checkHit_some_shape (t : ℕ) (now : ℚ) (σ : GameState) (idj : ℕ × Judgment)
    (h : (checkHit t now σ).2 = some idj) :
    ∃ (k : ℕ) (n : Note), σ.notes[k]? = some n ∧ n.processed = false ∧
      idj.1 = n.id ∧ (checkHit t now σ).1.notes = setProcessed σ.notes k ∧
      (checkHit t now σ).1.nextId = σ.nextId := by
  cases hbc : bestCand t now σ.notes with
  | none => simp [checkHit, hbc] at h
  | some p =>
      obtain ⟨i, d⟩ := p
      rcases bestCandAux_src t now σ.notes 0 none i d hbc with hacc | hsrc
      · exact Option.noConfusion hacc
      · obtain ⟨k, n, hk, hik, ht, hp, hd, h180⟩ := hsrc
        have hik0 : i = k := by omega
        subst hik0
        refine ⟨i, n, hk, hp, ?_, by simp [checkHit, hbc], by simp [checkHit, hbc]⟩
        have hval : idj = ((σ.notes[i]?.map Note.id).getD 0, judgeTier d) := by
          simp only [checkHit, hbc] at h
          exact (Option.some.inj h).symm
        rw [hval, hk]
        rfl

lemma tapStep_inv (t : ℕ) (now : ℚ) (σ : GameState) (ems : List (ℕ × Judgment))
    (h : TraceInv σ ems) :
    TraceInv (checkHit t now σ).1 (ems ++ (checkHit t now σ).2.toList) := by
  cases hck : (checkHit t now σ).2 with
  | none =>
      rw [checkHit_none_state t now σ hck]
      simpa using h
  | some idj =>
      obtain ⟨k, n, hk, hp, hid, hnotes, hnext⟩ := checkHit_some_shape t now σ idj hck
      have hmem : n ∈ σ.notes := List.getElem?_mem hk
      simp only [Option.toList_some]
      refine ⟨?_, ?_, ?_, ?_, ?_⟩
      · rw [hnotes, setProcessed_map_id]
        exact h.nodup
      · intro m hm
        rw [hnotes] at hm
        obtain ⟨n0, hn0, hidm⟩ := mem_of_mem_setProcessed_id σ.notes k m hm
        rw [hnext, ← hidm]
        exact h.bounded n0 hn0
      · intro i
        rw [countId_append, countId_single]
        by_cases hi : idj.1 = i
        · have h0 : countId i ems = 0 := by
            rw [← hi, hid]
            exact h.unproc n hmem hp
          rw [if_pos hi, h0]
        · rw [if_neg hi]
          have := h.once i
          omega
      · intro m hm hmp
        rw [hnotes] at hm
        obtain ⟨p, hpk, hp'⟩ := mem_setProcessed_unproc σ.notes k m hm hmp
        have hmemm : m ∈ σ.notes := List.getElem?_mem hp'
        have h1 : countId m.id ems = 0 := h.unproc m hmemm hmp
        have h2 : idj.1 ≠ m.id := by
          rw [hid]
          intro hidmn
          apply hpk
          have e1 : (σ.notes.map Note.id)[p]? = some m.id := by
            rw [List.getElem?_map, hp']
            rfl
          have e2 : (σ.notes.map Note.id)[k]? = some n.id := by
            rw [List.getElem?_map, hk]
            rfl
          have hplen : p < (σ.notes.map Note.id).length := by
            by_contra hge
            rw [List.getElem?_eq_none (le_of_not_lt hge)] at e1
            exact Option.noConfusion e1
          exact List.getElem?_inj hplen h.nodup (by rw [e1, e2, ← hidmn])
        rw [countId_append, countId_single, if_neg h2, h1]
      · intro i hge
        rw [hnext] at hge
        rw [countId_append, h.fresh i hge, countId_single]
        have hne : idj.1 ≠ i := by
          rw [hid]
          have := h.bounded n hmem
          omega
        rw [if_neg hne]

lemma frameStep_inv (now : ℚ) (σ : GameState) (ems : List (ℕ × Judgment))
    (h : TraceInv σ ems) :
    TraceInv (frameStep now σ).1 (ems ++ (frameStep now σ).2) := by
  have hnotes : (frameStep now σ).1.notes = retainFilter now (σ.notes.map (sweepOne now)) :=
    rfl
  have hnext : (frameStep now σ).1.nextId = σ.nextId := rfl
  have hems : (frameStep now σ).2 = sweepEmits now σ.notes := rfl
  refine ⟨?_, ?_, ?_, ?_, ?_⟩
  · rw [hnotes]
    have hsub : List.Sublist ((retainFilter now (σ.notes.map (sweepOne now))).map Note.id)
        ((σ.notes.map (sweepOne now)).map Note.id) := (List.filter_sublist _).map _
    rw [map_sweepOne_id] at hsub
    exact hsub.nodup h.nodup
  · intro m hm
    rw [hnotes] at hm
    have hm2 := List.mem_of_mem_filter hm
    obtain ⟨n0, hn0, rfl⟩ := List.mem_map.mp hm2
    rw [hnext, sweepOne_id]
    exact h.bounded n0 hn0
  · intro i
    rw [countId_append, hems]
    by_cases hz : countId i (sweepEmits now σ.notes) = 0
    · rw [hz]
      have := h.once i
      omega
    · obtain ⟨n0, hn0, hid0, hp0, hd0⟩ := countId_sweepEmits_pos now σ.notes i hz
      have h1 : countId i ems = 0 := by
        rw [← hid0]
        exact h.unproc n0 hn0 hp0
      have h2 := countId_sweepEmits_le_one now σ.notes h.nodup i
      omega
  · intro m hm hmp
    rw [hnotes] at hm
    have hm2 := List.mem_of_mem_filter hm
    obtain ⟨n0, hn0, rfl⟩ := List.mem_map.mp hm2
    obtain ⟨hp0, hnd0⟩ := sweepOne_processed_false now n0 hmp
    rw [countId_append, hems, sweepOne_id]
    have h1 : countId n0.id ems = 0 := h.unproc n0 hn0 hp0
    have h2 : countId n0.id (sweepEmits now σ.notes) = 0 := by
      apply countId_sweepEmits_zero
      intro n1 hn1 hid1 hc
      have hn10 : n1 = n0 := List.inj_on_of_nodup_map h.nodup hn1 hn0 hid1
      rw [hn10] at hc
      exact hnd0 hc.2
    rw [h1, h2]
  · intro i hge
    rw [hnext] at hge
    have h2 : countId i (sweepEmits now σ.notes) = 0 :=
      countId_sweepEmits_zero now σ.notes i fun n1 hn1 hid1 _ => by
        have := h.bounded n1 hn1
        omega
    rw [countId_append, hems, h.fresh i hge, h2]

lemma notes_append_inv (σ : GameState) (ems : List (ℕ × Judgment)) (h : TraceInv σ ems)
    (new : List Note) (k : ℕ)
    (hfresh : ∀ n ∈ new, σ.nextId ≤ n.id ∧ n.id < σ.nextId + k)
    (hnodupnew : (new.map Note.id).Nodup) :
    TraceInv { σ with notes := σ.notes ++ new, nextId := σ.nextId + k } ems := by
  refine ⟨?_, ?_, h.once, ?_, ?_⟩
  · show ((σ.notes ++ new).map Note.id).Nodup
    rw [List.map_append]
    refine h.nodup.append hnodupnew ?_
    rw [List.disjoint_left]
    intro a ha hb
    obtain ⟨n1, hn1, rfl⟩ := List.mem_map.mp ha
    obtain ⟨n2, hn2, hid⟩ := List.mem_map.mp hb
    have hb1 := h.bounded n1 hn1
    have hf2 := (hfresh n2 hn2).1
    omega
  · intro m hm
    rcases List.mem_append.mp hm with hm1 | hm1
    · have := h.bounded m hm1
      show m.id < σ.nextId + k
      omega
    · exact (hfresh m hm1).2
  · intro m hm hmp
    rcases List.mem_append.mp hm with hm1 | hm1
    · exact h.unproc m hm1 hmp
    · exact h.fresh m.id (hfresh m hm1).1
  · intro i hge
    refine h.fresh i ?_
    have : σ.nextId + k ≤ i := hge
    omega

lemma spawnStep_inv (t1 t2 : ℕ) (isSimul : Bool) (now dur : ℚ) (σ : GameState)
    (ems : List (ℕ × Judgment)) (h : TraceInv σ ems) :
    TraceInv (spawnNote t1 t2 isSimul now dur σ) ems := by
  cases isSimul with
  | false =>
      have heq : spawnNote t1 t2 false now dur σ =
          { σ with
              notes := σ.notes ++
                [{ id := σ.nextId, targetIdx := t1, spawnTime := now, duration := dur,
                   isSimultaneous := false, processed := false }]
              nextId := σ.nextId + 1 } := by
        simp [spawnNote, addNote]
      rw [heq]
      refine notes_append_inv σ ems h _ 1 ?_ (by simp)
      intro m hm
      rw [List.mem_singleton] at hm
      subst hm
      exact ⟨le_refl _, by show σ.nextId < σ.nextId + 1; omega⟩
  | true =>
      have heq : spawnNote t1 t2 true now dur σ =
          { σ with
              notes := σ.notes ++
                [{ id := σ.nextId, targetIdx := t1, spawnTime := now, duration := dur,
                   isSimultaneous := true, processed := false },
                 { id := σ.nextId + 1, targetIdx := t2, spawnTime := now, duration := dur,
                   isSimultaneous := true, processed := false }]
              nextId := σ.nextId + 2 } := by
        simp [spawnNote, addNote]
      rw [heq]
      refine notes_append_inv σ ems h _ 2 ?_ (by simp)
      intro m hm
      rcases List.mem_cons.mp hm with hm1 | hm1
      · subst hm1
        exact ⟨le_refl _, by show σ.nextId < σ.nextId + 2; omega⟩
      · rw [List.mem_singleton] at hm1
        subst hm1
        refine ⟨?_, ?_⟩
        · show σ.nextId ≤ σ.nextId + 1
          omega
        · show σ.nextId + 1 < σ.nextId + 2
          omega

lemma step_inv (σ : GameState) (e : Ev) (ems : List (ℕ × Judgment))
    (h : TraceInv σ ems) :
    TraceInv (step σ e).1 (ems ++ (step σ e).2) := by
  cases e with
  | tap t perfNow => exact tapStep_inv t (perfNow - σ.startTime) σ ems h
  | frame videoNow => exact frameStep_inv videoNow σ ems h
  | spawn t1 t2 isSimul videoNow dur =>
      show TraceInv (spawnNote t1 t2 isSimul videoNow dur σ) (ems ++ [])
      rw [List.append_nil]
      exact spawnStep_inv t1 t2 isSimul videoNow dur σ ems h

lemma run_inv :
    ∀ (evs : List Ev) (σ : GameState) (ems : List (ℕ × Judgment)),
      TraceInv σ ems → TraceInv (run σ evs).1 (ems ++ (run σ evs).2) := by
  intro evs
  induction evs with
  | nil => intro σ ems h; simpa [run] using h
  | cons e es ih =>
      intro σ ems h
      have h1 := step_inv σ e ems h
      have h2 := ih (step σ e).1 (ems ++ (step σ e).2) h1
      simp only [run]
      rw [← List.append_assoc]
      exact h2

lemma step_processed_mono (σ : GameState)
    (hnodup : (σ.notes.map Note.id).Nodup)
    (hbound : ∀ n ∈ σ.notes, n.id < σ.nextId) (e : Ev) (n m : Note)
    (hn : n ∈ σ.notes) (hproc : n.processed = true)
    (hm : m ∈ (step σ e).1.notes) (hid : m.id = n.id) : m.processed = true := by
  cases e with
  | tap t perfNow =>
      cases hck : (checkHit t (perfNow - σ.startTime) σ).2 with
      | none =>
          have hm' : m ∈ σ.notes := by
            rwa [show (step σ (Ev.tap t perfNow)).1 = (checkHit t (perfNow - σ.startTime) σ).1
              from rfl, checkHit_none_state _ _ _ hck] at hm
          have heq : m = n := List.inj_on_of_nodup_map hnodup hm' hn hid
          rw [heq]
          exact hproc
      | some idj =>
          obtain ⟨k, n0, hk, hp0, hid0, hnotes, hnext⟩ := checkHit_some_shape _ _ _ _ hck
          have hm' : m ∈ setProcessed σ.notes k := by
            rwa [show (step σ (Ev.tap t perfNow)).1 = (checkHit t (perfNow - σ.startTime) σ).1
              from rfl, hnotes] at hm
          cases hmp : m.processed with
          | true => rfl
          | false =>
              obtain ⟨p, hpk, hp'⟩ := mem_setProcessed_unproc σ.notes k m hm' hmp
              have hmem : m ∈ σ.notes := List.getElem?_mem hp'
              have heq : m = n := List.inj_on_of_nodup_map hnodup hmem hn hid
              rw [heq, hproc] at hmp
              exact hmp.symm
  | frame videoNow =>
      have hm' : m ∈ retainFilter videoNow (σ.notes.map (sweepOne videoNow)) := hm
      have hm2 := List.mem_of_mem_filter hm'
      obtain ⟨n0, hn0, rfl⟩ := List.mem_map.mp hm2
      cases hmp : (sweepOne videoNow n0).processed with
      | true => rfl
      | false =>
          obtain ⟨hp0, _⟩ := sweepOne_processed_false videoNow n0 hmp
          rw [sweepOne_id] at hid
          have heq : n0 = n := List.inj_on_of_nodup_map hnodup hn0 hn hid
          rw [heq, hproc] at hp0
          exact hp0.symm
  | spawn t1 t2 isSimul videoNow dur =>
      have hsplit : m ∈ σ.notes ∨ σ.nextId ≤ m.id := by
        cases isSimul with
        | false =>
            have hm' : m ∈ σ.notes ++
                [{ id := σ.nextId, targetIdx := t1, spawnTime := videoNow, duration := dur,
                   isSimultaneous := false, processed := false }] := by
              simpa [step, spawnNote, addNote] using hm
            rcases List.mem_append.mp hm' with h1 | h1
            · exact Or.inl h1
            · rw [List.mem_singleton] at h1
              subst h1
              exact Or.inr (le_refl _)
        | true =>
            have hm' : m ∈ (σ.notes ++
                [{ id := σ.nextId, targetIdx := t1, spawnTime := videoNow, duration := dur,
                   isSimultaneous := true, processed := false }]) ++
                [{ id := σ.nextId + 1, targetIdx := t2, spawnTime := videoNow, duration := dur,
                   isSimultaneous := true, processed := false }] := by
              simpa [step, spawnNote, addNote] using hm
            rcases List.mem_append.mp hm' with h1 | h1
            · rcases List.mem_append.mp h1 with h2 | h2
              · exact Or.inl h2
              · rw [List.mem_singleton] at h2
                subst h2
                exact Or.inr (le_refl _)
            · rw [List.mem_singleton] at h1
              subst h1
              exact Or.inr (by show σ.nextId ≤ σ.nextId + 1; omega)
      rcases hsplit with hmem | hge
      · have heq : m = n := List.inj_on_of_nodup_map hnodup hmem hn hid
        rw [heq]
        exact hproc
      · have hlt := hbound n hn
        rw [hid] at hge
        omega

/-- C4: along any interleaving of taps, frame updates and spawns from the
initial play state, each note id receives at most one emitted judgment — one
hit judgment or one timeout MISS, never both — and a note's `processed` flag
never reverts to false: a processed note stays processed across any further
step, so the flag transitions false-to-true at most once. -/
theorem note_judged_at_most_once (evs : List Ev) :
    (∀ i, countId i (run initState evs).2 ≤ 1) ∧
    (∀ (e : Ev) (n m : Note), n ∈ (run initState evs).1.notes → n.processed = true →
      m ∈ (step (run initState evs).1 e).1.notes → m.id = n.id →
      m.processed = true) := by
  have hinit : TraceInv initState [] := by
    refine ⟨?_, ?_, ?_, ?_, ?_⟩ <;> simp [initState, countId]
  have hrun := run_inv evs initState [] hinit
  constructor
  · intro i
    have h1 := hrun.once i
    simpa using h1
  · intro e n m hn hproc hm hid
    exact step_processed_mono (run initState evs).1 hrun.nodup hrun.bounded e n m
      hn hproc hm hid

/-- Witness for `note_judged_at_most_once`: along the concrete trace
`demoTrace` (one spawn, then a frame that times the note out with a MISS),
note id 0 is judged at most once, and the retired note is still processed
after one more frame. -/
theorem note_judged_at_most_once_witness :
    countId 0 (run initState demoTrace).2 ≤ 1 ∧ demoNote.processed = true := by
  refine ⟨(note_judged_at_most_once demoTrace).1 0, ?_⟩
  refine (note_judged_at_most_once demoTrace).2 (Ev.frame 1050) demoNote demoNote
    ?_ rfl ?_ rfl
  · norm_num [run, step, frameStep, spawnNote, addNote, sweepOne, sweepEmits,
      retainFilter, Note.arrival, initState, demoTrace, demoNote]
  · norm_num [run, step, frameStep, spawnNote, addNote, sweepOne, sweepEmits,
      retainFilter, Note.arrival, initState, demoTrace, demoNote]

/-- C3 (code bug): the source mixes clock bases.  `checkHit` measures the
input time as `performance.now() - startTime` (game.js:535), while
`spawnNote` records `spawnTime` from `video.currentTime * 1000` (game.js:421)
and the timeout sweep in `update` also reads `video.currentTime * 1000`
(game.js:636).  In `c3State` a note spawned at media time 1000 ms travels
2000 ms, so it arrives exactly at media time 3000 ms; if playback has stalled
500 ms, the same instant reads 3500 on the performance clock.  The tap at
that instant is silently ignored (wall-clock diff 500 ≥ 180), the media-clock
sweep agrees the note is not yet overdue, and yet judging the same tap on the
clock `spawnTime` was recorded on yields PERFECT. -/
theorem clock_basis_mixed :
    (step c3State (Ev.tap 0 3500)).2 = [] ∧
    (step c3State (Ev.frame 3000)).2 = [] ∧
    (checkHit 0 3000 c3State).2 = some (0, Judgment.PERFECT) := by
  refine ⟨?_, ?_, ?_⟩ <;>
    norm_num [step, checkHit, bestCand, bestCandAux, takesBest, noteDiff, Note.arrival,
      frameStep, sweepEmits, retainFilter, c3State, judgeTier, abs_of_nonneg]

end RhythmGame
